import Mathlib

/-!
# Verification of `requestspool`

A shallow embedding, in Lean 4, of the `requestspool` Python module
(`requestspool.py`): a multiprocessing pool that gives every worker process a
unique auxiliary resource (by default a `requests.Session`), partitions the
input items round-robin over the workers, and aggregates per-worker result
lists.

Embedded functions (names follow the source where Lean allows):
* `sliceStep` / `splitItems` embed `_split_items` (the Python generator that
  yields `iterable[i::split_in]` for `i in range(split_in)`).
* `flatten_or_not` embeds `_flatten_or_not`.
* `pool_run_map` / `pool_run_starmap` embed the submission of
  `_map_wrap_func` / `_starmap_wrap_func` over the partitions via
  `pool.starmap(wrap, itertools.product((func,), _split_items(...)))`,
  with the resource factory instrumented by an invocation counter so that
  resource-construction counts and identities are observable.
* `requestsPool_map` / `requestsPool_starmap` embed `RequestsPool.map` /
  `RequestsPool.starmap`.
* `rp_init`, `getstate`, `rp_exit` embed `RequestsPool.__init__`,
  `__getstate__` and `__exit__`; `poolNew` and `PoolHandle` model the
  external `multiprocessing.Pool` collaborator.
-/

/-- Embeds the Python extended slice `xs[0::step]` used by `_split_items`
(`iterable[i::split_in]` is `sliceStep split_in (iterable.drop i)`): the
elements at indices `0, step, 2*step, ...`. -/
def sliceStep (step : Nat) : List α → List α
  | [] => []
  | x :: rest => x :: sliceStep step (rest.drop (step - 1))
termination_by xs => xs.length
decreasing_by simp [List.length_drop]; omega

/-- Embeds `_split_items(iterable, split_in)`: for `i in range(split_in)`,
yield `iterable[i::split_in]`.  The generator is materialised as the list of
its yields, in yield order. -/
def splitItems (xs : List α) (splitIn : Nat) : List (List α) :=
  (List.range splitIn).map (fun i => sliceStep splitIn (xs.drop i))

/-- Embeds `_split_items` with its `split_in` argument kept as a Python
`int`, which may be non-positive.  `range(split_in)` is empty for
`split_in <= 0`, so the generator yields nothing and raises nothing. -/
def splitItemsInt (xs : List α) (splitIn : Int) : List (List α) :=
  splitItems xs splitIn.toNat

/-- Result type of `_flatten_or_not(flatten, iterable)`: the Python function
returns either a single flat list or the given list of per-partition lists. -/
inductive FlattenResult (β : Type u) where
  | flat : List β → FlattenResult β
  | grouped : List (List β) → FlattenResult β
deriving DecidableEq

/-- Embeds `_flatten_or_not(flatten, iterable)`:
`[i for sub in iterable for i in sub] if flatten else iterable`. -/
def flatten_or_not (flatten : Bool) (iterable : List (List β)) : FlattenResult β :=
  if flatten then .flat iterable.flatten else .grouped iterable

/-- Embeds running `pool.starmap(self._map_wrap_func, itertools.product((func,),
parts), chunksize)`.  `itertools.product((func,), parts)` pairs the same
`func` with every partition, and `pool.starmap` (the external pool primitive)
returns the worker tasks' results in submission order; `chunksize` does not
affect the results.  Each task runs `_map_wrap_func(func, sub)`, which first
calls `special = self.special_func(*args, **kwargs)` exactly once and then
returns `[func(item, special) for item in sub]`.  The resource factory is
instrumented: its `t`-th invocation overall returns `factory t`, so that the
number of constructions and the identity of each task's resource are
observable.  Returns the per-task result lists together with the total number
of factory invocations. -/
def pool_run_map (factory : Nat → σ) (func : α → σ → β)
    (parts : List (List α)) : List (List β) × Nat :=
  parts.foldl
    (fun acc sub =>
      let special := factory acc.2
      (acc.1 ++ [sub.map (fun item => func item special)], acc.2 + 1))
    ([], 0)

/-- Embeds running `pool.starmap(self._starmap_wrap_func, ...)` the same way:
each task runs `_starmap_wrap_func(func, sub)` which constructs `special` once
and returns `[func(*item, special) for item in sub]`.  Items are modelled as
pairs and Python's positional unpacking `func(*item, special)` as
`func item.1 item.2 special`. -/
def pool_run_starmap (factory : Nat → σ) (func : γ₁ → γ₂ → σ → β)
    (parts : List (List (γ₁ × γ₂))) : List (List β) × Nat :=
  parts.foldl
    (fun acc sub =>
      let special := factory acc.2
      (acc.1 ++ [sub.map (fun item => func item.1 item.2 special)], acc.2 + 1))
    ([], 0)

/-- Embeds `RequestsPool.map(func, iterable, chunksize, flatten)`:
`_flatten_or_not(flatten, pool.starmap(_map_wrap_func, product((func,),
_split_items(iterable, self.processes)), chunksize))`. -/
def requestsPool_map (P : Nat) (factory : Nat → σ) (func : α → σ → β)
    (xs : List α) (flatten : Bool) : FlattenResult β :=
  flatten_or_not flatten (pool_run_map factory func (splitItems xs P)).1

/-- Embeds `RequestsPool.starmap(func, iterable, chunksize, flatten)`. -/
def requestsPool_starmap (P : Nat) (factory : Nat → σ) (func : γ₁ → γ₂ → σ → β)
    (xs : List (γ₁ × γ₂)) (flatten : Bool) : FlattenResult β :=
  flatten_or_not flatten (pool_run_starmap factory func (splitItems xs P)).1

/-- The instance `__dict__` of a `RequestsPool` right after `__init__`: the
five attributes it assigns.  Callable references (`special_func`) and the live
pool handle are modelled as opaque numeric tags; `processes` is an `Int`
because Python's `processes or os.cpu_count()` keeps a negative argument
as-is. -/
structure RequestsPoolAttrs where
  processes : Int
  special_func : Nat
  special_args : List Int
  special_kwargs : List (String × Int)
  pool : Nat
deriving DecidableEq

/-- The dict returned by `RequestsPool.__getstate__`: a copy of `__dict__`
with the `pool` key deleted. -/
structure RequestsPoolPickled where
  processes : Int
  special_func : Nat
  special_args : List Int
  special_kwargs : List (String × Int)
deriving DecidableEq

/-- Embeds `RequestsPool.__getstate__`: copy `self.__dict__`, delete
`'pool'`, return the rest unchanged. -/
def getstate (d : RequestsPoolAttrs) : RequestsPoolPickled :=
  ⟨d.processes, d.special_func, d.special_args, d.special_kwargs⟩

/-- Opaque tag standing for the default factory `requests.Session`. -/
def sessionTag : Nat := 0

/-- Models the worker-count validation of the external collaborator
`multiprocessing.Pool(processes, ...)` (CPython: `processes=None` means
`os.cpu_count()`; `processes < 1` raises
`ValueError("Number of processes must be at least 1")` before any worker is
started). -/
def poolNew (processes : Option Int) : Except String Unit :=
  match processes with
  | none => .ok ()
  | some p => if p < 1 then .error "Number of processes must be at least 1" else .ok ()

/-- Embeds `RequestsPool.__init__(processes, special_func, special_args,
special_kwargs, initializer, initargs, maxtasksperchild)`.  The four
`x or default` attribute assignments run first (Python falsiness: `None` and
`0` / empty containers are falsy), then
`multiprocessing.Pool(processes, initializer, initargs, maxtasksperchild)` is
constructed with the original `processes` argument and may raise.
`initializer` and `initargs` are passed to the pool but never stored on the
instance.  `cpu_count` stands for `os.cpu_count()` and `pool_id` for the
handle of the freshly created pool. -/
def rp_init (cpu_count : Nat) (pool_id : Nat) (processes : Option Int)
    (special_func : Option Nat) (special_args : Option (List Int))
    (special_kwargs : Option (List (String × Int)))
    (initializer : Option Nat) (initargs : List Int) :
    Except String RequestsPoolAttrs :=
  let procs : Int := match processes with
    | none => (cpu_count : Int)
    | some p => if p = 0 then (cpu_count : Int) else p
  let sf : Nat := special_func.getD sessionTag
  let sa : List Int := match special_args with
    | none => []
    | some a => if a = [] then [] else a
  let sk : List (String × Int) := match special_kwargs with
    | none => []
    | some k => if k = [] then [] else k
  match poolNew processes with
  | .error e => .error e
  | .ok _ =>
      let _ := initializer
      let _ := initargs
      .ok ⟨procs, sf, sa, sk, pool_id⟩

/-- Observable lifecycle state of the external pool handle: whether `close()`
and `join()` have been called on it. -/
structure PoolHandle where
  closed : Bool
  joined : Bool
deriving DecidableEq

/-- Models `multiprocessing.Pool.close()`. -/
def pool_close (p : PoolHandle) : PoolHandle := { p with closed := true }

/-- Models `multiprocessing.Pool.join()`. -/
def pool_join (p : PoolHandle) : PoolHandle := { p with joined := true }

/-- Embeds `RequestsPool.__exit__(type_, value, traceback)`: its body is
exactly `self.pool.close()`.  The Python `with` statement calls `__exit__` on
every exit path, including exceptions. -/
def rp_exit (p : PoolHandle) : PoolHandle := pool_close p

theorem sliceStep_nil (step : Nat) : sliceStep step ([] : List α) = [] := by
  simp [sliceStep]

theorem sliceStep_cons (step : Nat) (x : α) (rest : List α) :
    sliceStep step (x :: rest) = x :: sliceStep step (rest.drop (step - 1)) := by
  simp [sliceStep]

theorem sliceStep_getElem? (step : Nat) (hstep : 1 ≤ step) :
    ∀ (xs : List α) (j : Nat), (sliceStep step xs)[j]? = xs[j * step]? := by
  intro xs
  induction xs using sliceStep.induct step with
  | case1 => simp [sliceStep_nil]
  | case2 x rest ih =>
      intro j
      cases j with
      | zero => simp [sliceStep_cons]
      | succ j =>
          rw [sliceStep_cons, List.getElem?_cons_succ, ih j, List.getElem?_drop]
          have hm : (j + 1) * step = j * step + step := Nat.succ_mul j step
          obtain ⟨k, hk⟩ : ∃ k, (j + 1) * step = k + 1 := ⟨(j + 1) * step - 1, by omega⟩
          rw [hk, List.getElem?_cons_succ]
          congr 1
          omega

theorem sliceStep_length (step : Nat) (hstep : 1 ≤ step) :
    ∀ xs : List α, (sliceStep step xs).length = (xs.length + step - 1) / step := by
  intro xs
  induction xs using sliceStep.induct step with
  | case1 =>
      rw [sliceStep_nil, List.length_nil]
      rw [Nat.div_eq_of_lt (by omega)]
  | case2 x rest ih =>
      rw [sliceStep_cons, List.length_cons, ih, List.length_drop, List.length_cons]
      have h3 : rest.length + 1 + step - 1 = rest.length + step := by omega
      rw [h3, Nat.add_div_right _ hstep]
      rcases le_or_lt (step - 1) rest.length with h | h
      · have h4 : rest.length - (step - 1) + step - 1 = rest.length := by omega
        rw [h4]
      · have h4 : rest.length - (step - 1) + step - 1 = step - 1 := by omega
        rw [h4, Nat.div_eq_of_lt (by omega), Nat.div_eq_of_lt (by omega)]

theorem sliceStep_map (step : Nat) (f : α → β) :
    ∀ xs : List α, sliceStep step (xs.map f) = (sliceStep step xs).map f := by
  intro xs
  induction xs using sliceStep.induct step with
  | case1 => simp [sliceStep_nil]
  | case2 x rest ih =>
      rw [List.map_cons, sliceStep_cons, sliceStep_cons, List.map_cons, ← List.map_drop, ih]

theorem sliceStep_one : ∀ xs : List α, sliceStep 1 xs = xs := by
  intro xs
  induction xs using sliceStep.induct 1 with
  | case1 => rw [sliceStep_nil]
  | case2 x rest ih =>
      rw [sliceStep_cons]
      simpa using ih

theorem splitItems_length (xs : List α) (P : Nat) : (splitItems xs P).length = P := by
  simp [splitItems]

theorem splitItems_getD (xs : List α) (P k : Nat) (hk : k < P) :
    (splitItems xs P).getD k [] = sliceStep P (xs.drop k) := by
  rw [splitItems, List.getD_eq_getElem?_getD, List.getElem?_map, List.getElem?_range hk]
  rfl

theorem splitItems_cons (x : α) (xs : List α) (m : Nat) :
    splitItems (x :: xs) (m + 1) =
      (x :: sliceStep (m + 1) (xs.drop m)) :: (List.range m).map (fun i => sliceStep (m + 1) (xs.drop i)) := by
  rw [splitItems, List.range_succ_eq_map, List.map_cons, List.map_map]
  congr 1
  rw [List.drop_zero, sliceStep_cons, Nat.add_sub_cancel]

theorem splitItems_snoc (xs : List α) (m : Nat) :
    splitItems xs (m + 1) =
      (List.range m).map (fun i => sliceStep (m + 1) (xs.drop i)) ++ [sliceStep (m + 1) (xs.drop m)] := by
  rw [splitItems, List.range_succ, List.map_append, List.map_cons, List.map_nil]

theorem splitItems_flatten_perm (P : Nat) (hP : 1 ≤ P) (xs : List α) :
    (splitItems xs P).flatten.Perm xs := by
  obtain ⟨m, rfl⟩ : ∃ m, P = m + 1 := ⟨P - 1, by omega⟩
  induction xs with
  | nil => simp [splitItems, sliceStep_nil]
  | cons x xs ih =>
      rw [splitItems_cons, List.flatten_cons, List.cons_append]
      have hsnoc : (splitItems xs (m + 1)).flatten =
          ((List.range m).map (fun i => sliceStep (m + 1) (xs.drop i))).flatten ++
            sliceStep (m + 1) (xs.drop m) := by
        rw [splitItems_snoc, List.flatten_append]
        simp
      have h1 : List.Perm
          (sliceStep (m + 1) (xs.drop m) ++
            ((List.range m).map (fun i => sliceStep (m + 1) (xs.drop i))).flatten)
          (((List.range m).map (fun i => sliceStep (m + 1) (xs.drop i))).flatten ++
            sliceStep (m + 1) (xs.drop m)) := List.perm_append_comm
      rw [← hsnoc] at h1
      exact List.Perm.cons x (h1.trans ih)

theorem ceilDiv_sub_cases (N P k : Nat) (hP : 0 < P) (hk : k < P) :
    (N - k + P - 1) / P = N / P ∨ (N - k + P - 1) / P = N / P + 1 := by
  obtain ⟨q, r, hqr, hr⟩ : ∃ q r, q * P + r = N ∧ r < P :=
    ⟨N / P, N % P, by rw [Nat.mul_comm]; exact Nat.div_add_mod N P, Nat.mod_lt N hP⟩
  have hNP : N / P = q := by
    rw [← hqr, show q * P + r = r + q * P by ring, Nat.add_mul_div_right _ _ hP,
      Nat.div_eq_of_lt hr, Nat.zero_add]
  rw [hNP]
  by_cases hkr : k ≤ r
  · have e : N - k + P - 1 = (r - k + P - 1) + q * P := by omega
    rw [e, Nat.add_mul_div_right _ _ hP]
    have h2 : (r - k + P - 1) / P < 2 := by
      rw [Nat.div_lt_iff_lt_mul hP]
      omega
    obtain ⟨u, hu⟩ : ∃ u, (r - k + P - 1) / P = u := ⟨_, rfl⟩
    rw [hu] at h2 ⊢
    omega
  · push_neg at hkr
    by_cases hkN : k ≤ N
    · have hq0 : q ≠ 0 := by
        rintro rfl
        simp only [Nat.zero_mul, Nat.zero_add] at hqr
        omega
      have hsub : (q - 1) * P = q * P - P := Nat.sub_one_mul _ _
      have hPle : P ≤ q * P := by
        calc P = 1 * P := (one_mul P).symm
        _ ≤ q * P := Nat.mul_le_mul_right P (by omega)
      have e : N - k + P - 1 = (P + r - k + P - 1) + (q - 1) * P := by omega
      rw [e, Nat.add_mul_div_right _ _ hP]
      have e2 : P + r - k + P - 1 = (P + r - k - 1) + P := by omega
      have e3 : (P + r - k - 1) / P = 0 := Nat.div_eq_of_lt (by omega)
      rw [e2, Nat.add_div_right _ hP, e3]
      omega
    · push_neg at hkN
      have e : N - k + P - 1 = P - 1 := by omega
      have hq : q = 0 := by
        rcases Nat.eq_zero_or_pos q with h | h
        · exact h
        · exfalso
          have : P ≤ q * P := by
            calc P = 1 * P := (one_mul P).symm
            _ ≤ q * P := Nat.mul_le_mul_right P h
          omega
      rw [e, Nat.div_eq_of_lt (by omega)]
      omega

theorem pool_run_map_go (factory : Nat → σ) (func : α → σ → β) :
    ∀ (parts : List (List α)) (acc : List (List β)) (c : Nat),
      parts.foldl
        (fun acc sub =>
          (acc.1 ++ [sub.map (fun item => func item (factory acc.2))], acc.2 + 1))
        (acc, c) =
      (acc ++ (List.range parts.length).map
          (fun t => (parts.getD t []).map (fun item => func item (factory (c + t)))),
        c + parts.length) := by
  intro parts
  induction parts with
  | nil => simp
  | cons sub parts ih =>
      intro acc c
      rw [List.foldl_cons, ih]
      rw [List.length_cons, List.range_succ_eq_map, List.map_cons, List.map_map]
      simp only [Prod.mk.injEq]
      refine ⟨?_, by omega⟩
      rw [List.append_assoc, List.singleton_append]
      congr 1
      congr 1
      all_goals simp
      intro a ha a2 h2
      congr 2
      omega

theorem pool_run_map_eq (factory : Nat → σ) (func : α → σ → β) (parts : List (List α)) :
    pool_run_map factory func parts =
      ((List.range parts.length).map
          (fun t => (parts.getD t []).map (fun item => func item (factory t))),
        parts.length) := by
  have h := pool_run_map_go factory func parts [] 0
  simpa [pool_run_map] using h

theorem pool_run_starmap_eq_map (factory : Nat → σ) (func : γ₁ → γ₂ → σ → β)
    (parts : List (List (γ₁ × γ₂))) :
    pool_run_starmap factory func parts =
      pool_run_map factory (fun item s => func item.1 item.2 s) parts := rfl

/-- C1: For every sequence of N items and every worker count P ≥ 1,
`_split_items` produces exactly P subsequences; the j-th element of
subsequence k is the item at original index k + j·P (so subsequence k holds
exactly the items whose index is ≡ k (mod P), in ascending index order, and
item i appears in subsequence i % P at offset i / P); each subsequence size
is ⌊N/P⌋ or ⌊N/P⌋ + 1; the sizes sum to N. -/
theorem split_items_partition_spec (α : Type) (xs : List α) (P : Nat) (hP : 1 ≤ P) :
    (splitItems xs P).length = P ∧
    (∀ k, k < P → ∀ j : Nat, ((splitItems xs P).getD k [])[j]? = xs[k + j * P]?) ∧
    (∀ i, i < xs.length → ((splitItems xs P).getD (i % P) [])[i / P]? = xs[i]?) ∧
    (∀ k, k < P → ((splitItems xs P).getD k []).length = xs.length / P ∨
        ((splitItems xs P).getD k []).length = xs.length / P + 1) ∧
    ((splitItems xs P).map List.length).sum = xs.length := by
  refine ⟨splitItems_length xs P, ?_, ?_, ?_, ?_⟩
  · intro k hk j
    rw [splitItems_getD xs P k hk, sliceStep_getElem? P hP, List.getElem?_drop]
  · intro i hi
    have hk : i % P < P := Nat.mod_lt i hP
    rw [splitItems_getD xs P _ hk, sliceStep_getElem? P hP, List.getElem?_drop]
    congr 1
    exact Nat.mod_add_div' i P
  · intro k hk
    rw [splitItems_getD xs P k hk, sliceStep_length P hP, List.length_drop]
    exact ceilDiv_sub_cases xs.length P k hP hk
  · rw [← List.length_flatten]
    exact (splitItems_flatten_perm P hP xs).length_eq

theorem split_items_partition_spec_witness :
    1 ≤ 3 ∧ ((splitItems [10, 20, 30, 40, 50, 60, 70] 3).map List.length).sum = 7 :=
  ⟨by norm_num, (split_items_partition_spec Nat [10, 20, 30, 40, 50, 60, 70] 3 (by norm_num)).2.2.2.2⟩

/-- C9: Partitioning is a pure, deterministic function of (sequence, P):
evaluating it twice on the same arguments gives the same partitions, and the
partition layout does not depend on the item values: relabelling every item
through an arbitrary function commutes with partitioning. -/
theorem split_items_deterministic (α β : Type) (f : α → β) (xs : List α) (P : Nat) :
    splitItems xs P = splitItems xs P ∧
    splitItems (xs.map f) P = (splitItems xs P).map (List.map f) := by
  refine ⟨rfl, ?_⟩
  rw [splitItems, splitItems, List.map_map]
  apply List.map_congr_left
  intro i _
  simp only [Function.comp_apply]
  rw [← List.map_drop, sliceStep_map]

theorem splitItems_flatten_one (xs : List α) : (splitItems xs 1).flatten = xs := by
  simp [splitItems, sliceStep_one, List.range_succ]

theorem splitItems_head (xs : List α) (m : Nat) :
    ∃ tail, splitItems xs (m + 1) = sliceStep (m + 1) xs :: tail := by
  rw [splitItems, List.range_succ_eq_map, List.map_cons, List.drop_zero]
  exact ⟨_, rfl⟩

theorem splitItems_flatten_ne (Q : Nat) (hQ : 2 ≤ Q) :
    (splitItems (List.range (Q + 1)) Q).flatten ≠ List.range (Q + 1) := by
  intro h
  obtain ⟨m, rfl⟩ : ∃ m, Q = m + 1 := ⟨Q - 1, by omega⟩
  obtain ⟨tail, htail⟩ := splitItems_head (List.range (m + 1 + 1)) m
  have hlen : (sliceStep (m + 1) (List.range (m + 1 + 1))).length = 2 := by
    rw [sliceStep_length (m + 1) (by omega), List.length_range]
    have e : m + 1 + 1 + (m + 1) - 1 = 2 * (m + 1) := by omega
    rw [e, Nat.mul_div_cancel _ (by omega)]
  have h1 : (splitItems (List.range (m + 1 + 1)) (m + 1)).flatten[1]? = some (m + 1) := by
    rw [htail, List.flatten_cons, List.getElem?_append]
    rw [if_pos (by omega)]
    rw [sliceStep_getElem? (m + 1) (by omega), Nat.one_mul, List.getElem?_range (by omega)]
  rw [h, List.getElem?_range (by omega)] at h1
  have h2 := Option.some.inj h1
  omega

/-- C2: Flattening the P partitions in partition-index order is a
rearrangement (round-robin de-interleave) of the original sequence; with
P = 1 it is exactly the original sequence, while for any P ≥ 2 there is a
sequence whose de-interleave differs from the original order; `map` with
`flatten=true` returns the concatenation, in partition-index order, of the
per-partition result lists, with `flatten=false` it returns the P
per-partition result lists in partition-index order, and likewise for
`starmap`. -/
theorem map_flatten_round_robin (σ β α γ₁ γ₂ δ : Type) (factory : Nat → σ)
    (func : α → σ → β) (sfunc : γ₁ → γ₂ → σ → δ)
    (xs : List α) (ys : List (γ₁ × γ₂)) (P : Nat) (hP : 1 ≤ P) :
    (splitItems xs P).flatten.Perm xs ∧
    (splitItems xs 1).flatten = xs ∧
    (∀ Q, 2 ≤ Q → ∃ zs : List Nat, (splitItems zs Q).flatten ≠ zs) ∧
    requestsPool_map P factory func xs true =
      FlattenResult.flat (pool_run_map factory func (splitItems xs P)).1.flatten ∧
    requestsPool_map P factory func xs false =
      FlattenResult.grouped (pool_run_map factory func (splitItems xs P)).1 ∧
    (pool_run_map factory func (splitItems xs P)).1.length = P ∧
    requestsPool_starmap P factory sfunc ys true =
      FlattenResult.flat (pool_run_starmap factory sfunc (splitItems ys P)).1.flatten ∧
    requestsPool_starmap P factory sfunc ys false =
      FlattenResult.grouped (pool_run_starmap factory sfunc (splitItems ys P)).1 ∧
    (pool_run_starmap factory sfunc (splitItems ys P)).1.length = P := by
  refine ⟨splitItems_flatten_perm P hP xs, splitItems_flatten_one xs, ?_, rfl, rfl, ?_, rfl, rfl, ?_⟩
  · intro Q hQ
    exact ⟨List.range (Q + 1), splitItems_flatten_ne Q hQ⟩
  · rw [pool_run_map_eq]
    simp [splitItems_length]
  · rw [pool_run_starmap_eq_map, pool_run_map_eq]
    simp [splitItems_length]

theorem map_flatten_round_robin_witness :
    1 ≤ 2 ∧
    requestsPool_map 2 (fun t => t) (fun (item : Nat) (s : Nat) => (item, s)) [5, 6, 7] true =
      FlattenResult.flat
        (pool_run_map (fun t => t) (fun (item : Nat) (s : Nat) => (item, s))
          (splitItems [5, 6, 7] 2)).1.flatten :=
  ⟨by norm_num,
    (map_flatten_round_robin Nat (Nat × Nat) Nat Nat Nat Nat (fun t => t)
      (fun item s => (item, s)) (fun a b s => a + b + s) [5, 6, 7] [(1, 2)] 2
      (by norm_num)).2.2.2.1⟩

/-- C3: In every `map`/`starmap` call over P partitions, the resource factory
runs exactly once per worker task (P invocations in total, with distinct
invocation contexts, so an injective identity-tracking factory yields P
pairwise-distinct resource instances), and within task t every item is
applied with that task's single resource `factory t`, results kept in item
order. -/
theorem map_resource_uniqueness (σ β α γ₁ γ₂ δ : Type) (factory : Nat → σ)
    (func : α → σ → β) (sfunc : γ₁ → γ₂ → σ → δ)
    (xs : List α) (ys : List (γ₁ × γ₂)) (P : Nat) (hP : 1 ≤ P) :
    (pool_run_map factory func (splitItems xs P)).2 = P ∧
    (pool_run_map factory func (splitItems xs P)).1.length = P ∧
    (∀ t, t < P → (pool_run_map factory func (splitItems xs P)).1.getD t [] =
      ((splitItems xs P).getD t []).map (fun item => func item (factory t))) ∧
    (pool_run_starmap factory sfunc (splitItems ys P)).2 = P ∧
    (∀ t, t < P → (pool_run_starmap factory sfunc (splitItems ys P)).1.getD t [] =
      ((splitItems ys P).getD t []).map (fun item => sfunc item.1 item.2 (factory t))) ∧
    (Function.Injective factory → ((List.range P).map factory).Nodup) := by
  refine ⟨?_, ?_, ?_, ?_, ?_, ?_⟩
  · rw [pool_run_map_eq, splitItems_length]
  · rw [pool_run_map_eq]
    simp [splitItems_length]
  · intro t ht
    rw [pool_run_map_eq]
    simp only [splitItems_length]
    rw [List.getD_eq_getElem?_getD, List.getElem?_map, List.getElem?_range ht]
    rfl
  · rw [pool_run_starmap_eq_map, pool_run_map_eq, splitItems_length]
  · intro t ht
    rw [pool_run_starmap_eq_map, pool_run_map_eq]
    simp only [splitItems_length]
    rw [List.getD_eq_getElem?_getD, List.getElem?_map, List.getElem?_range ht]
    rfl
  · intro hinj
    exact (List.nodup_range P).map hinj

theorem map_resource_uniqueness_witness :
    1 ≤ 2 ∧
    (pool_run_map (fun t => t) (fun (item : Nat) (s : Nat) => (item, s))
      (splitItems [5, 6, 7] 2)).2 = 2 :=
  ⟨by norm_num,
    (map_resource_uniqueness Nat (Nat × Nat) Nat Nat Nat Nat (fun t => t)
      (fun item s => (item, s)) (fun a b s => a + b + s)
      [5, 6, 7] [(1, 2)] 2 (by norm_num)).1⟩

/-- C6: `starmap`'s worker task applies the target function to each item's
components unpacked positionally (modelled for pair items) with the task's
resource appended as the final argument, whereas `map` passes the whole item
as a single argument; apart from this argument convention, `starmap` is the
`map` pipeline applied to the uncurried function. -/
theorem starmap_unpacking (σ β γ₁ γ₂ : Type) (factory : Nat → σ)
    (func : γ₁ → γ₂ → σ → β) (xs : List (γ₁ × γ₂)) (P : Nat) (flatten : Bool) (hP : 1 ≤ P) :
    (∀ t, t < P → (pool_run_starmap factory func (splitItems xs P)).1.getD t [] =
      ((splitItems xs P).getD t []).map (fun item => func item.1 item.2 (factory t))) ∧
    pool_run_starmap factory func (splitItems xs P) =
      pool_run_map factory (fun item s => func item.1 item.2 s) (splitItems xs P) ∧
    requestsPool_starmap P factory func xs flatten =
      requestsPool_map P factory (fun item s => func item.1 item.2 s) xs flatten := by
  refine ⟨?_, rfl, rfl⟩
  intro t ht
  rw [pool_run_starmap_eq_map, pool_run_map_eq]
  simp only [splitItems_length]
  rw [List.getD_eq_getElem?_getD, List.getElem?_map, List.getElem?_range ht]
  rfl

theorem starmap_unpacking_witness :
    1 ≤ 2 ∧
    (pool_run_starmap (fun t => t) (fun (a b : Nat) (s : Nat) => a + b + s)
        (splitItems [(1, 2), (3, 4)] 2)).1.getD 0 [] =
      ((splitItems [(1, 2), (3, 4)] 2).getD 0 []).map
        (fun item => item.1 + item.2 + (fun t => t) 0) :=
  ⟨by norm_num,
    (starmap_unpacking Nat Nat Nat Nat (fun t => t) (fun a b s => a + b + s)
      [(1, 2), (3, 4)] 2 true (by norm_num)).1 0 (by norm_num)⟩

/-- C7: For the empty input, partitioning with any worker count P yields P
empty subsequences (concretely, four with P = 4; trailing subsequences are
present rather than omitted), `map` with `flatten=true` returns the empty
sequence, and with `flatten=false` it returns four empty sequences. -/
theorem empty_input_partitions :
    (∀ P : Nat, splitItems ([] : List Nat) P = List.replicate P []) ∧
    splitItems ([] : List Nat) 4 = [[], [], [], []] ∧
    requestsPool_map 4 (fun t => t) (fun (item : Nat) (s : Nat) => (item, s)) [] true =
      FlattenResult.flat [] ∧
    requestsPool_map 4 (fun t => t) (fun (item : Nat) (s : Nat) => (item, s)) [] false =
      FlattenResult.grouped [[], [], [], []] := by
  have hsplit : ∀ P : Nat, splitItems ([] : List Nat) P = List.replicate P [] := by
    intro P
    rw [splitItems]
    rw [show (List.range P).map (fun i => sliceStep P (([] : List Nat).drop i)) =
        (List.range P).map (fun _ => []) from
      List.map_congr_left (fun i _ => by rw [List.drop_nil, sliceStep_nil])]
    rw [List.map_const', List.length_range]
  refine ⟨hsplit, ?_, ?_, ?_⟩
  · rw [hsplit 4]
    rfl
  · rw [requestsPool_map, pool_run_map_eq, hsplit 4]
    rfl
  · rw [requestsPool_map, pool_run_map_eq, hsplit 4]
    rfl

/-- C4 counterexample: the partitioner given a non-positive partition count
does not fail with an "invalid partition count" error — `range(split_in)` is
empty, so the generator yields zero subsequences and raises nothing. -/
theorem split_items_nonpositive_no_error :
    splitItemsInt ([1, 2, 3] : List Int) 0 = [] ∧
    splitItemsInt ([1, 2, 3] : List Int) (-2) = [] := ⟨rfl, rfl⟩

/-- C4 amended: a worker count p ≤ 0 supplied at coordinator construction
makes `__init__` fail synchronously (the `ValueError` of the underlying
`multiprocessing.Pool`, raised before any worker starts, so no instance and
no partial pool result); the partitioner itself, given a partition count
p ≤ 0, yields zero subsequences without raising. -/
theorem nonpositive_worker_count (p : Int) (hp : p ≤ 0) (cpu pid : Nat)
    (sf : Option Nat) (sa : Option (List Int)) (sk : Option (List (String × Int)))
    (ini : Option Nat) (ia : List Int) (xs : List Int) :
    rp_init cpu pid (some p) sf sa sk ini ia =
      Except.error "Number of processes must be at least 1" ∧
    splitItemsInt xs p = [] := by
  constructor
  · simp only [rp_init, poolNew]
    rw [if_pos (by omega)]
  · rw [splitItemsInt, Int.toNat_eq_zero.mpr hp]
    rfl

theorem nonpositive_worker_count_witness :
    (-3 : Int) ≤ 0 ∧
    rp_init 8 0 (some (-3)) none none none none [] =
      Except.error "Number of processes must be at least 1" :=
  ⟨by norm_num,
    (nonpositive_worker_count (-3) (by norm_num) 8 0 none none none none [] [7]).1⟩

/-- C10 counterexample: `processes=0` is falsy, and `self.processes` would be
set to `os.cpu_count()`, but `__init__` passes the original `0` to
`multiprocessing.Pool`, which raises — so construction fails rather than
succeeding with the cpu count. -/
theorem zero_processes_raises :
    rp_init 4 1 (some 0) none none none none [] =
      Except.error "Number of processes must be at least 1" := rfl

/-- C10 amended: `processes=None` yields a coordinator whose worker count is
`os.cpu_count()`; a falsy resource factory, factory args, or factory kwargs
are replaced by the defaults `requests.Session`, `()` and `{}`; but
`processes=0`, although falsy, makes the underlying pool constructor raise,
so construction fails. -/
theorem falsy_defaults (cpu pid : Nat) (ini : Option Nat) (ia : List Int) :
    rp_init cpu pid none none none none ini ia =
      Except.ok ⟨(cpu : Int), sessionTag, [], [], pid⟩ ∧
    rp_init cpu pid none (some 5) (some []) (some []) ini ia =
      Except.ok ⟨(cpu : Int), 5, [], [], pid⟩ ∧
    rp_init cpu pid (some 0) none none none ini ia =
      Except.error "Number of processes must be at least 1" := ⟨rfl, rfl, rfl⟩

/-- C5 counterexample: two constructions that differ only in the initializer
and its arguments produce identical instance state, so the state exposed for
pickling cannot contain the initializer reference or its arguments —
`__init__` never stores them on the instance. -/
theorem getstate_missing_initializer :
    rp_init 4 7 (some 2) (some 5) (some [1]) (some [("a", 2)]) (some 11) [3] =
      rp_init 4 7 (some 2) (some 5) (some [1]) (some [("a", 2)]) (some 12) [9] ∧
    (11 : Nat) ≠ 12 ∧ ([3] : List Int) ≠ [9] := by
  refine ⟨rfl, by decide, by decide⟩

/-- C5 amended: the pickled state contains the configured worker count and
the resource factory reference with its positional and keyword arguments,
all preserved unchanged, and excludes the live pool handle (the result is
independent of the `pool` field); it does not contain the initializer or its
arguments, which `__init__` never stores on the instance. -/
theorem getstate_spec (d : RequestsPoolAttrs) (p cpu pid : Nat) (procs : Option Int)
    (sf : Option Nat) (sa : Option (List Int)) (sk : Option (List (String × Int)))
    (i1 i2 : Option Nat) (a1 a2 : List Int) :
    (getstate d).processes = d.processes ∧
    (getstate d).special_func = d.special_func ∧
    (getstate d).special_args = d.special_args ∧
    (getstate d).special_kwargs = d.special_kwargs ∧
    getstate { d with pool := p } = getstate d ∧
    rp_init cpu pid procs sf sa sk i1 a1 = rp_init cpu pid procs sf sa sk i2 a2 :=
  ⟨rfl, rfl, rfl, rfl, rfl, rfl⟩

/-- C8 counterexample: `__exit__` on a running pool calls `close()` only:
the pool ends up closed but not joined. -/
theorem exit_does_not_join :
    rp_exit ⟨false, false⟩ = ⟨true, false⟩ ∧
    (rp_exit ⟨false, false⟩).joined = false := ⟨rfl, rfl⟩

/-- C8 amended: releasing the coordinator (its `__exit__`, which the `with`
statement runs on every exit path including exceptions) closes the
underlying pool — no further task submission, workers exit after finishing —
but it does not join the pool: the joined-state is left unchanged. -/
theorem exit_closes_pool (p : PoolHandle) :
    (rp_exit p).closed = true ∧ (rp_exit p).joined = p.joined := ⟨rfl, rfl⟩
